import Mathlib

/-!
Verification development for the leak-detection core
(`src/analysis.ts`, `src/puppeteerUtils.ts`).

TypeScript is shallowly embedded: promises for the fallible search
primitive become `Except Unit`, JS `undefined` becomes `Option.none`,
a thrown `TypeError` (property access on `undefined`) becomes `Option.none`
at the function's result, and `Promise.all` becomes an order-preserving
sequence over `Except` (JS `Promise.all` assembles results positionally,
regardless of completion order).
-/

namespace LeakDetect

/-! ## Generic monadic helpers (plain structural recursion, for easy proofs) -/

/-- Sequence a list of `Except` computations, keeping positional order;
models `Promise.all` over already-started tasks: `ok` of the value list
when every task resolves, `error` as soon as any task rejects. -/
def exceptAll : List (Except Unit α) → Except Unit (List α)
  | [] => .ok []
  | t :: ts =>
    match t with
    | .error e => .error e
    | .ok x =>
      match exceptAll ts with
      | .error e => .error e
      | .ok xs => .ok (x :: xs)

/-- `mapM` over `Option` by structural recursion (`none` models a JS throw). -/
def mapOpt (f : α → Option β) : List α → Option (List β)
  | [] => some []
  | x :: xs =>
    match f x with
    | none => none
    | some y =>
      match mapOpt f xs with
      | none => none
      | some ys => some (y :: ys)

/-- `filter` with an `Option`-valued (possibly throwing) predicate. -/
def filterOpt (p : α → Option Bool) : List α → Option (List α)
  | [] => some []
  | x :: xs =>
    match p x with
    | none => none
    | some b =>
      match filterOpt p xs with
      | none => none
      | some rest => some (if b then x :: rest else rest)

/-- Pair every element with its index, starting at `n`
(models a JS `map`/`flatMap` callback's second argument). -/
def withIndexFrom (n : Nat) : List α → List (α × Nat)
  | [] => []
  | x :: xs => (x, n) :: withIndexFrom (n + 1) xs

/-- Pair every element with its 0-based index. -/
def withIndex (l : List α) : List (α × Nat) := withIndexFrom 0 l

theorem mem_withIndexFrom {l : List α} {x : α} {i n : Nat}
    (h : (x, i) ∈ withIndexFrom n l) : n ≤ i ∧ l.get? (i - n) = some x := by
  induction l generalizing n with
  | nil => simp [withIndexFrom] at h
  | cons a as ih =>
    simp only [withIndexFrom, List.mem_cons] at h
    rcases h with h | h
    · cases h
      simp
    · obtain ⟨h1, h2⟩ := ih h
      refine ⟨by omega, ?_⟩
      have : i - n = (i - (n + 1)) + 1 := by omega
      rw [this]
      simpa using h2

theorem mem_withIndex {l : List α} {x : α} {i : Nat}
    (h : (x, i) ∈ withIndex l) : l.get? i = some x := by
  have := mem_withIndexFrom h
  simpa using this.2

/-! ## Data model for `findValue` (`src/analysis.ts`)

`RequestCollector.RequestData` comes from the (external) collector; the
fields used by this repository are `url`, `requestHeaders`, `postData`,
`wallTime`, `stack` and the classification flags. Optional fields are
`Option`s; header maps are ordered association lists (JS object
enumeration order). Byte buffers (`Buffer.from`) are modelled as the
strings they are built from. -/

structure RequestData where
  url : String
  requestHeaders : Option (List (String × String)) := none
  postData : Option String := none
  wallTime : Option Int := none
  stack : Option (List String) := none
  thirdParty : Option Bool := none
  tracker : Option Bool := none
  deriving DecidableEq, Repr

/-- `part: 'url' | 'header' | 'body'` of a `FindEntry`. -/
inductive FindPart where
  | url
  | header
  | body
  deriving DecidableEq, Repr

/-- `FindEntry` from `src/analysis.ts` (optional index fields as in the
TypeScript interface). -/
structure FindEntry where
  requestIndex : Option Nat := none
  visitedTargetIndex : Option Nat := none
  part : FindPart
  header : Option String := none
  encodings : List String := []
  deriving DecidableEq, Repr

/-- The search primitive `searcher.findValueIn`: one call per buffer,
resolving to an encoding chain list or a falsy value (`none`), or
rejecting (`Except.error`).  `encoders.map(String)` is the identity on the
modelled string chains. -/
def Searcher := String → Except Unit (Option (List String))

/-- The per-request tasks of `findValue`'s `flatMap` callback: one search
of the URL, one per header value, and one slot for the body.  The body
slot holds the falsy `postData` itself — i.e. resolves to `none` — when
`postData` is absent or the empty string, exactly as
`request.postData && searcher.findValueIn(...)` does. -/
def requestTasks (searcher : Searcher) (request : RequestData)
    (requestIndex : Nat) : List (Except Unit (Option FindEntry)) :=
  [(searcher request.url).map (Option.map (fun encoders =>
    { requestIndex := some requestIndex, part := .url, encodings := encoders }))]
  ++ (request.requestHeaders.getD []).map (fun nv =>
    (searcher nv.2).map (Option.map (fun encoders =>
      { requestIndex := some requestIndex, part := .header, header := some nv.1,
        encodings := encoders })))
  ++ [match request.postData with
      | some pd =>
        if pd = "" then .ok none
        else (searcher pd).map (Option.map (fun encoders =>
          { requestIndex := some requestIndex, part := .body, encodings := encoders }))
      | none => .ok none]

/-- The ordered list of per-location search tasks built by `findValue`:
the per-request tasks request by request, then one task per visited
target whose URL is not among the request URLs. -/
def findValueTasks (searcher : Searcher) (requests : List RequestData)
    (visitedTargets : List String) : List (Except Unit (Option FindEntry)) :=
  let requestUrls := requests.map (·.url)
  (withIndex requests).flatMap (fun ri => requestTasks searcher ri.1 ri.2)
  ++ ((withIndex visitedTargets).filter (fun ui => ¬ requestUrls.contains ui.1)).map
    (fun ui =>
      (searcher ui.1).map (Option.map (fun encoders =>
        { visitedTargetIndex := some ui.2, part := .url,
          encodings := encoders })))

/-- `findValue` from `src/analysis.ts`: fire all searches, `Promise.all`
them, drop falsy results (`.filter(notFalsy)`). -/
def findValue (searcher : Searcher) (requests : List RequestData)
    (visitedTargets : List String) : Except Unit (List FindEntry) :=
  match exceptAll (findValueTasks searcher requests visitedTargets) with
  | .error e => .error e
  | .ok results => .ok (results.filterMap id)

/-! ## Helper lemmas about `exceptAll` -/

theorem exceptAll_eq_error_iff {ts : List (Except Unit α)} :
    exceptAll ts = .error () ↔ .error () ∈ ts := by
  induction ts with
  | nil => simp [exceptAll]
  | cons t ts ih =>
    cases t with
    | error e => cases e; simp [exceptAll]
    | ok v =>
      cases h : exceptAll ts with
      | error e =>
        cases e
        simp only [exceptAll, h, List.mem_cons]
        exact ⟨fun _ => Or.inr (ih.mp h), fun _ => trivial⟩
      | ok vs =>
        simp only [exceptAll, h, List.mem_cons]
        constructor
        · intro hcontra; cases hcontra
        · rintro (h1 | h1)
          · cases h1
          · rw [ih.mpr h1] at h; cases h

theorem exceptAll_map_ok (vs : List α) : exceptAll (vs.map Except.ok) = .ok vs := by
  induction vs with
  | nil => rfl
  | cons v vs ih => simp [exceptAll, ih]

theorem exceptAll_ok_of (ts : List (Except Unit α)) :
    ∀ vs, exceptAll ts = .ok vs → ts = vs.map Except.ok := by
  induction ts with
  | nil =>
    intro vs h
    simp only [exceptAll] at h
    cases h
    rfl
  | cons t ts ih =>
    intro vs h
    cases t with
    | error e =>
      simp only [exceptAll] at h
      exact Except.noConfusion h
    | ok v =>
      cases h' : exceptAll ts with
      | error e =>
        simp only [exceptAll, h'] at h
        exact Except.noConfusion h
      | ok us =>
        simp only [exceptAll, h'] at h
        cases h
        simp [ih us h']

theorem exceptAll_eq_ok_iff {ts : List (Except Unit α)} {vs : List α} :
    exceptAll ts = .ok vs ↔ ts = vs.map Except.ok := by
  constructor
  · exact exceptAll_ok_of ts vs
  · intro h; rw [h]; exact exceptAll_map_ok vs

/-! ## More `withIndex` lemmas -/

theorem withIndexFrom_shift {l : List α} {x : α} {i n : Nat}
    (h : (x, i) ∈ withIndexFrom n l) : (x, i + 1) ∈ withIndexFrom (n + 1) l := by
  induction l generalizing n i with
  | nil => cases h
  | cons a as ih =>
    rcases List.mem_cons.mp h with h | h
    · cases h
      exact List.mem_cons_self _ _
    · exact List.mem_cons_of_mem _ (ih h)

theorem mem_withIndex_of_mem {l : List α} {x : α} (h : x ∈ l) :
    ∃ i, (x, i) ∈ withIndex l := by
  induction l with
  | nil => cases h
  | cons a as ih =>
    rcases List.mem_cons.mp h with h | h
    · exact ⟨0, by rw [h]; exact List.mem_cons_self _ _⟩
    · obtain ⟨i, hi⟩ := ih h
      exact ⟨i + 1, List.mem_cons_of_mem _ (withIndexFrom_shift hi)⟩

theorem fst_mem_of_mem_withIndex {l : List α} {x : α} {i : Nat}
    (h : (x, i) ∈ withIndex l) : x ∈ l :=
  List.get?_mem (mem_withIndex h)

/-! ## The buffers searched by `findValue`, and error propagation (C1) -/

/-- The list of byte buffers on which `findValue` invokes the search
primitive: per request its URL, each header value, and (when truthy) the
POST body; then each visited-target URL not equal to a request URL. -/
def searchedBuffers (requests : List RequestData) (visitedTargets : List String) :
    List String :=
  requests.flatMap (fun request =>
    [request.url] ++ (request.requestHeaders.getD []).map (·.2)
    ++ (match request.postData with
        | some pd => if pd = "" then [] else [pd]
        | none => []))
  ++ visitedTargets.filter (fun url => ¬ (requests.map (·.url)).contains url)

theorem map_eq_error_iff {e : Except Unit α} {f : α → β} :
    e.map f = .error () ↔ e = .error () := by
  cases e with
  | error u => cases u; simp [Except.map]
  | ok v => simp [Except.map]

theorem error_mem_findValueTasks_iff {s : Searcher} {rs : List RequestData}
    {ts : List String} :
    .error () ∈ findValueTasks s rs ts ↔ ∃ b ∈ searchedBuffers rs ts, s b = .error () := by
  have perReq : ∀ (r : RequestData) (i : Nat),
      (Except.error () ∈
        ([(s r.url).map (Option.map (fun encoders =>
            ({ requestIndex := some i, part := .url, encodings := encoders } : FindEntry)))]
        ++ (r.requestHeaders.getD []).map (fun (nv : String × String) =>
          (s nv.2).map (Option.map (fun encoders =>
            ({ requestIndex := some i, part := .header, header := some nv.1,
               encodings := encoders } : FindEntry))))
        ++ [match r.postData with
            | some pd =>
              if pd = "" then .ok none
              else (s pd).map (Option.map (fun encoders =>
                ({ requestIndex := some i, part := .body, encodings := encoders } : FindEntry)))
            | none => .ok none]))
      ↔ ∃ b ∈ ([r.url] ++ (r.requestHeaders.getD []).map (·.2)
          ++ (match r.postData with
              | some pd => if pd = "" then [] else [pd]
              | none => [])), s b = .error () := by
    intro r i
    simp only [List.mem_append, List.mem_singleton, List.mem_map]
    constructor
    · rintro ((h | ⟨nv, hmem, hEq⟩) | h)
      · exact ⟨r.url, Or.inl (Or.inl rfl), map_eq_error_iff.mp h.symm⟩
      · exact ⟨nv.2, Or.inl (Or.inr ⟨nv, hmem, rfl⟩), map_eq_error_iff.mp hEq⟩
      · cases hpd : r.postData with
        | none => simp only [hpd] at h; cases h
        | some pd =>
          simp only [hpd] at h
          by_cases hemp : pd = ""
          · simp only [if_pos hemp] at h; cases h
          · simp only [if_neg hemp] at h
            refine ⟨pd, Or.inr ?_, map_eq_error_iff.mp h.symm⟩
            simp only [hpd, if_neg hemp]
            simp
    · rintro ⟨b, (hb | ⟨nv, hmem, hb⟩) | hb, herr⟩
      · exact Or.inl (Or.inl (by rw [hb] at herr; rw [herr]; rfl))
      · exact Or.inl (Or.inr ⟨nv, hmem, by rw [hb, herr]; rfl⟩)
      · refine Or.inr ?_
        cases hpd : r.postData with
        | none => simp only [hpd] at hb; cases hb
        | some pd =>
          simp only [hpd] at hb
          by_cases hemp : pd = ""
          · simp only [if_pos hemp] at hb; cases hb
          · simp only [if_neg hemp, List.mem_singleton] at hb
            subst hb
            simp only [if_neg hemp, herr]
            simp [Except.map]
  unfold findValueTasks searchedBuffers
  simp only [List.mem_append]
  constructor
  · rintro (h | h)
    · rw [List.mem_flatMap] at h
      obtain ⟨ri, hri, hmem⟩ := h
      obtain ⟨r, i⟩ := ri
      obtain ⟨b, hb, herr⟩ := (perReq r i).mp hmem
      refine ⟨b, Or.inl ?_, herr⟩
      rw [List.mem_flatMap]
      exact ⟨r, fst_mem_of_mem_withIndex hri, hb⟩
    · rw [List.mem_map] at h
      obtain ⟨ui, hmem, hEq⟩ := h
      obtain ⟨u, i⟩ := ui
      rw [List.mem_filter] at hmem
      refine ⟨u, Or.inr ?_, map_eq_error_iff.mp hEq⟩
      rw [List.mem_filter]
      exact ⟨fst_mem_of_mem_withIndex hmem.1, hmem.2⟩
  · rintro ⟨b, hb | hb, herr⟩
    · rw [List.mem_flatMap] at hb
      obtain ⟨r, hr, hbr⟩ := hb
      obtain ⟨i, hri⟩ := mem_withIndex_of_mem hr
      left
      rw [List.mem_flatMap]
      exact ⟨(r, i), hri, (perReq r i).mpr ⟨b, hbr, herr⟩⟩
    · rw [List.mem_filter] at hb
      obtain ⟨i, hbi⟩ := mem_withIndex_of_mem hb.1
      right
      rw [List.mem_map]
      refine ⟨(b, i), ?_, by rw [herr]; rfl⟩
      rw [List.mem_filter]
      exact ⟨hbi, hb.2⟩

theorem findValue_error_iff {s : Searcher} {rs : List RequestData} {ts : List String} :
    findValue s rs ts = .error () ↔
      ∃ b ∈ searchedBuffers rs ts, s b = .error () := by
  rw [← error_mem_findValueTasks_iff, ← exceptAll_eq_error_iff]
  unfold findValue
  cases h : exceptAll (findValueTasks s rs ts) with
  | error e => cases e; simp
  | ok vs => simp

/-! ## Structural order of the assembled findings (C5, C3) -/

/-- The value a settled task contributes after `.filter(notFalsy)`:
its finding, if any (a rejected task never reaches the filter). -/
def taskVal : Except Unit (Option FindEntry) → Option FindEntry
  | .ok v => v
  | .error _ => none

/-- The finding contributed by one location: the entry built by `mk` when
the (successful) search finds an encoding chain, nothing otherwise. -/
def findingAt (searcher : Searcher) (buffer : String)
    (mk : List String → FindEntry) : Option FindEntry :=
  match searcher buffer with
  | .ok (some encoders) => some (mk encoders)
  | _ => none

/-- The findings contributed by one request, in structural order: its URL
search, then each header in enumeration order, then its body if present,
with non-finding locations omitted. -/
def requestFindings (searcher : Searcher) (request : RequestData)
    (requestIndex : Nat) : List FindEntry :=
  (findingAt searcher request.url (fun encodings =>
    { requestIndex := some requestIndex, part := .url, encodings := encodings })).toList
  ++ (request.requestHeaders.getD []).filterMap (fun nv =>
      findingAt searcher nv.2 (fun encodings =>
        { requestIndex := some requestIndex, part := .header, header := some nv.1,
          encodings := encodings }))
  ++ (match request.postData with
      | some pd =>
        if pd = "" then []
        else (findingAt searcher pd (fun encodings =>
          { requestIndex := some requestIndex, part := .body,
            encodings := encodings })).toList
      | none => [])

/-- The findings of `findValue` in the fixed structural order the spec
describes: request-by-request (URL search, then each header in
enumeration order, then the body if present), then the visited targets in
visited-target index order, with non-finding locations omitted. -/
def structuralFindings (searcher : Searcher) (requests : List RequestData)
    (visitedTargets : List String) : List FindEntry :=
  let requestUrls := requests.map (·.url)
  (withIndex requests).flatMap (fun ri => requestFindings searcher ri.1 ri.2)
  ++ ((withIndex visitedTargets).filter (fun ui => ¬ requestUrls.contains ui.1)).filterMap
      (fun ui =>
        findingAt searcher ui.1 (fun encodings =>
          { visitedTargetIndex := some ui.2, part := .url,
            encodings := encodings }))

theorem taskVal_searcher {s : Searcher} {b : String} {f : List String → FindEntry} :
    taskVal ((s b).map (Option.map f)) = findingAt s b f := by
  unfold findingAt
  cases hb : s b with
  | error u => rfl
  | ok o => cases o <;> rfl

theorem filterMapFlatMap (l : List α) (f : α → List β) (g : β → Option γ) :
    (l.flatMap f).filterMap g = l.flatMap fun x => (f x).filterMap g := by
  induction l with
  | nil => rfl
  | cons a as ih => simp [List.flatMap_cons, List.filterMap_append, ih]

theorem filterMap_singleton_toList (g : β → Option γ) (a : β) :
    ([a] : List β).filterMap g = (g a).toList := by
  cases h : g a <;> simp [List.filterMap_cons, h]

theorem filterMap_taskVal_requestTasks (s : Searcher) (r : RequestData) (i : Nat) :
    (requestTasks s r i).filterMap taskVal = requestFindings s r i := by
  unfold requestTasks requestFindings
  simp only [List.filterMap_append, filterMap_singleton_toList, List.filterMap_map,
    Function.comp_def, taskVal_searcher]
  cases hpd : r.postData with
  | none => simp [hpd, taskVal]
  | some pd =>
    by_cases hemp : pd = ""
    · simp [hpd, hemp, taskVal]
    · simp only [hpd, if_neg hemp, taskVal_searcher]

theorem filterMap_taskVal_tasks (s : Searcher) (rs : List RequestData) (ts : List String) :
    (findValueTasks s rs ts).filterMap taskVal = structuralFindings s rs ts := by
  unfold findValueTasks structuralFindings
  rw [List.filterMap_append]
  congr 1
  · rw [filterMapFlatMap]
    have hfun : (fun ri : RequestData × Nat => (requestTasks s ri.1 ri.2).filterMap taskVal)
        = (fun ri : RequestData × Nat => requestFindings s ri.1 ri.2) := by
      funext ri
      exact filterMap_taskVal_requestTasks s ri.1 ri.2
    rw [hfun]
  · rw [List.filterMap_map]
    simp only [Function.comp_def]
    simp only [taskVal_searcher]

/-- When `findValue` resolves, its value is exactly the structurally
ordered finding list (independent of task completion order, which
`Promise.all`'s positional assembly already erases). -/
theorem findValue_ok_eq {s : Searcher} {rs : List RequestData} {ts : List String}
    {l : List FindEntry} (h : findValue s rs ts = .ok l) :
    l = structuralFindings s rs ts := by
  unfold findValue at h
  cases hA : exceptAll (findValueTasks s rs ts) with
  | error e => rw [hA] at h; exact Except.noConfusion h
  | ok results =>
    rw [hA] at h
    have hl : l = results.filterMap id := (Except.ok.inj h).symm
    have htasks := exceptAll_ok_of _ results hA
    rw [← filterMap_taskVal_tasks s rs ts, htasks, List.filterMap_map]
    have hcomp : (taskVal ∘ Except.ok : Option FindEntry → Option FindEntry) = id :=
      funext fun v => rfl
    rw [hcomp, hl]

/-! ## Membership of structural findings (C3) -/

theorem findingAt_eq_some {s : Searcher} {b : String} {mk : List String → FindEntry}
    {e : FindEntry} (h : findingAt s b mk = some e) : ∃ enc, e = mk enc := by
  unfold findingAt at h
  cases hb : s b with
  | error u =>
    simp only [hb] at h
    exact Option.noConfusion h
  | ok o =>
    cases o with
    | none =>
      simp only [hb] at h
      exact Option.noConfusion h
    | some enc =>
      simp only [hb] at h
      exact ⟨enc, (Option.some.inj h).symm⟩

theorem mem_structuralFindings {s : Searcher} {rs : List RequestData} {ts : List String}
    {e : FindEntry} (h : e ∈ structuralFindings s rs ts) :
    (∃ i, e.requestIndex = some i ∧ e.visitedTargetIndex = none)
    ∨ (∃ i u, e.requestIndex = none ∧ e.visitedTargetIndex = some i ∧
        ts.get? i = some u ∧ (rs.map (·.url)).contains u = false) := by
  unfold structuralFindings at h
  rcases List.mem_append.mp h with h | h
  · rcases List.mem_flatMap.mp h with ⟨ri, hri, hmem⟩
    left
    unfold requestFindings at hmem
    rcases List.mem_append.mp hmem with hmem | hmem
    case inl =>
      rcases List.mem_append.mp hmem with hmem | hmem
      · rw [Option.mem_toList, Option.mem_def] at hmem
        obtain ⟨enc, he⟩ := findingAt_eq_some hmem
        exact ⟨ri.2, by rw [he]; exact ⟨rfl, rfl⟩⟩
      · rcases List.mem_filterMap.mp hmem with ⟨nv, _, hsome⟩
        obtain ⟨enc, he⟩ := findingAt_eq_some hsome
        exact ⟨ri.2, by rw [he]; exact ⟨rfl, rfl⟩⟩
    case inr =>
      cases hpd : ri.1.postData with
      | none =>
        simp only [hpd] at hmem
        cases hmem
      | some pd =>
        simp only [hpd] at hmem
        by_cases hemp : pd = ""
        · simp only [if_pos hemp] at hmem
          cases hmem
        · simp only [if_neg hemp, Option.mem_toList, Option.mem_def] at hmem
          obtain ⟨enc, he⟩ := findingAt_eq_some hmem
          exact ⟨ri.2, by rw [he]; exact ⟨rfl, rfl⟩⟩
  · rcases List.mem_filterMap.mp h with ⟨ui, hui, hsome⟩
    obtain ⟨enc, he⟩ := findingAt_eq_some hsome
    right
    rw [List.mem_filter] at hui
    refine ⟨ui.2, ui.1, by rw [he], by rw [he], ?_, ?_⟩
    · exact mem_withIndex (by rcases ui with ⟨u, i⟩; exact hui.1)
    · have := hui.2
      simpa using this

/-! ## Claim theorems: C1, C3, C5 -/

/-- A searcher that rejects on the buffer `"u"` (the sole request's URL)
and finds an encoding elsewhere. -/
def c1Searcher : Searcher := fun b => if b = "u" then .error () else .ok (some ["x"])

/-- C1 counterexample: with one request whose URL search rejects and one
visited target whose search succeeds, `findValue`'s promise does not
resolve to the other location's findings — it rejects, aborting the whole
batch.  This refutes the claim that a single rejecting per-location
invocation leaves the batch resolving with the remaining findings. -/
theorem C1_counterexample :
    findValue c1Searcher [{ url := "u" }] ["v"] = .error () := by rfl

/-- C1 (amended): `findValue` performs no per-call catch.  Its promise
rejects exactly when at least one per-location invocation of the search
primitive rejects; only locations whose search resolves to a falsy value
contribute no `FindEntry` without aborting the batch. -/
theorem C1_amended_rejection_rejects_batch (s : Searcher) (rs : List RequestData)
    (ts : List String) :
    findValue s rs ts = .error () ↔ ∃ b ∈ searchedBuffers rs ts, s b = .error () :=
  findValue_error_iff

/-- C3: every entry returned by `findValue` carries exactly one of
`requestIndex`/`visitedTargetIndex`, and no `visitedTargetIndex`-keyed
entry is produced for a visited target whose URL equals a request URL. -/
theorem C3_mutually_exclusive_location_tags (s : Searcher) (rs : List RequestData)
    (ts : List String) (l : List FindEntry) (h : findValue s rs ts = .ok l) :
    (∀ e ∈ l, (e.requestIndex.isSome ∧ e.visitedTargetIndex = none) ∨
      (e.requestIndex = none ∧ e.visitedTargetIndex.isSome))
    ∧ (∀ e ∈ l, ∀ i, e.visitedTargetIndex = some i →
        ∃ u, ts.get? i = some u ∧ (rs.map (·.url)).contains u = false) := by
  have hl := findValue_ok_eq h
  subst hl
  constructor
  · intro e he
    rcases mem_structuralFindings he with ⟨i, h1, h2⟩ | ⟨i, u, h1, h2, _, _⟩
    · exact Or.inl ⟨by rw [h1]; rfl, h2⟩
    · exact Or.inr ⟨h1, by rw [h2]; rfl⟩
  · intro e he i hvt
    rcases mem_structuralFindings he with ⟨j, h1, h2⟩ | ⟨j, u, h1, h2, h3, h4⟩
    · rw [h2] at hvt
      exact Option.noConfusion hvt
    · rw [h2] at hvt
      cases Option.some.inj hvt
      exact ⟨u, h3, h4⟩

def c3Searcher : Searcher := fun _ => .ok (some ["x"])

def c3Requests : List RequestData := [{ url := "u" }]

def c3Targets : List String := ["u", "v"]

def c3Result : List FindEntry :=
  [{ requestIndex := some 0, part := .url, encodings := ["x"] },
   { visitedTargetIndex := some 1, part := .url, encodings := ["x"] }]

/-- Witness for C3 at a concrete input (one request, one duplicate-URL
visited target, one fresh visited target). -/
theorem C3_witness :
    (∀ e ∈ c3Result, (e.requestIndex.isSome ∧ e.visitedTargetIndex = none) ∨
      (e.requestIndex = none ∧ e.visitedTargetIndex.isSome))
    ∧ (∀ e ∈ c3Result, ∀ i, e.visitedTargetIndex = some i →
        ∃ u, c3Targets.get? i = some u ∧ (c3Requests.map (·.url)).contains u = false) :=
  C3_mutually_exclusive_location_tags c3Searcher c3Requests c3Targets c3Result (by rfl)

/-- C5: the `FindEntry` list `findValue` resolves to is assembled in the
fixed structural order — all entries of request 0 (URL, then each header
in enumeration order, then body if present), then request 1, …, followed
by visited-target entries in visited-target index order, non-finding
locations omitted — irrespective of completion order, which
`Promise.all`'s positional assembly erases. -/
theorem C5_fixed_structural_order (s : Searcher) (rs : List RequestData)
    (ts : List String) (l : List FindEntry) (h : findValue s rs ts = .ok l) :
    l = structuralFindings s rs ts :=
  findValue_ok_eq h

def c5Searcher : Searcher := fun _ => .ok (some ["enc"])

def c5Request : RequestData :=
  { url := "u", requestHeaders := some [("h1", "w")], postData := some "p" }

/-- Witness for C5 at a concrete input exercising URL, header, body and
visited-target entries (with a duplicate-URL target dropped). -/
theorem C5_witness :
    ([{ requestIndex := some 0, part := .url, encodings := ["enc"] },
      { requestIndex := some 0, part := .header, header := some "h1", encodings := ["enc"] },
      { requestIndex := some 0, part := .body, encodings := ["enc"] },
      { visitedTargetIndex := some 1, part := .url, encodings := ["enc"] }] : List FindEntry)
    = structuralFindings c5Searcher [c5Request] ["u", "v"] :=
  C5_fixed_structural_order c5Searcher [c5Request] ["u", "v"] _ (by rfl)

/-! ## Data model for `getSummary` (`src/analysis.ts`)

The satellite types (`OutputFile`, `SavedCallEx`, `ThirdPartyInfo`,
`FullFieldsCollectorOptions`, the fields-collector payload) live in
`src/main.ts`, `src/pageUtils.ts` and `src/FieldsCollector.ts`, which are
not under `src/`; their shapes are modelled from the spec's data model
(§3) and from their use in `analysis.ts`.  Timestamps are modelled as
integer milliseconds.  Collections whose elements `getSummary` never
inspects (`fields`, `links`) are lists of opaque elements. -/

structure ThirdPartyInfo where
  thirdParty : Option Bool := none
  tracker : Option Bool := none
  deriving DecidableEq, Repr

structure PasswordLeakAttrs where
  frameStack : Option (List String) := none
  deriving DecidableEq, Repr

structure PasswordLeak where
  time : Int
  attributeName : String -- `attribute` in the source (a Lean keyword)
  selector : List String
  attrs : Option PasswordLeakAttrs := none
  frameStack : Option (List String) := none
  deriving DecidableEq, Repr

structure VisitedTarget where
  url : String
  time : Int
  thirdParty : Option Bool := none
  tracker : Option Bool := none
  deriving DecidableEq, Repr

inductive FieldsEventKind where
  | fill
  | submit
  | clickLink
  | other
  deriving DecidableEq, Repr

structure CollectorErrorEntry where
  level : String
  /-- `some s`: a string context item; `none`: a non-string one
  (both behave identically in `getSummary`). -/
  context : List (Option String)
  /-- The `String(error)` rendering. -/
  error : String
  deriving DecidableEq, Repr

structure FieldsData where
  passwordLeaks : List PasswordLeak
  visitedTargets : List VisitedTarget
  fields : List Unit
  events : List FieldsEventKind
  links : Option (List Unit) := none
  errors : List CollectorErrorEntry
  deriving DecidableEq, Repr

structure SavedCallCustom where
  selectorChain : Option (List String) := none
  type : String
  value : String
  time : Int
  deriving DecidableEq, Repr

/-- `SavedCallEx`; per the spec's data model, `stack` and `stackInfo` are
present and positionally aligned. -/
structure SavedCallEx where
  description : String
  custom : SavedCallCustom
  stack : List String
  stackInfo : List (Option ThirdPartyInfo)
  deriving DecidableEq, Repr

structure ApisData where
  savedCalls : List SavedCallEx
  deriving DecidableEq, Repr

structure CollectorData where
  fields : Option FieldsData := none
  requests : Option (List RequestData) := none
  apis : Option ApisData := none
  deriving DecidableEq, Repr

structure CrawlResult where
  initialUrl : String
  finalUrl : String
  testStarted : Int
  testFinished : Int
  data : CollectorData
  deriving DecidableEq, Repr

/-- One entry of `output.leakedValues`: a `FindEntry` plus the tracked
secret's label (`leak.type`); `part` is rendered as-is. -/
structure LeakedValue where
  requestIndex : Option Nat := none
  visitedTargetIndex : Option Nat := none
  part : String
  header : Option String := none
  encodings : List String := []
  type : String
  deriving DecidableEq, Repr

structure OutputFile where
  crawlResult : CrawlResult
  leakedValues : Option (List LeakedValue) := none
  deriving DecidableEq, Repr

structure FillOptions where
  email : String
  password : String
  deriving DecidableEq, Repr

structure FullFieldsCollectorOptions where
  fill : FillOptions
  deriving DecidableEq, Repr

/-! ## Helpers used by `getSummary` -/

/-- Modelled from the spec: `selectorStr` (`src/pageUtils.ts`, not under
src/) renders a selector chain ("selector path rendered as a string");
modelled as joining the chain's selectors with the shadow-DOM separator
(an empty chain, or a chain of empty selectors, renders empty). -/
def selectorStr (chain : List String) : String := String.intercalate ">>>" chain

/-- Modelled from the spec: `formatDuration` (`src/utils.ts`, not under
src/) renders a duration; the exact text is irrelevant to every claim. -/
def formatDuration (ms : Int) : String := toString ms ++ " ms"

/-- Modelled from the spec: `nonEmpty` (`src/utils.ts`, not under src/) —
true iff the optional array is present and has at least one element. -/
def nonEmpty : Option (List α) → Bool
  | some (_ :: _) => true
  | _ => false

/-- `((timestamp - testStarted) / 1e3).toFixed(1)` on integer-millisecond
timestamps: tenths of seconds, rounded half away from zero. -/
def toFixed1 (ms : Int) : String :=
  let tenths : Int := if 0 ≤ ms then (ms + 50) / 100 else -((-ms + 50) / 100)
  (if tenths < 0 then "-" else "")
    ++ toString (tenths.natAbs / 10) ++ "." ++ toString (tenths.natAbs % 10)

/-- The local `time` helper of `getSummary`. -/
def timeStr (testStarted timestamp : Int) : String :=
  "⌚️" ++ toFixed1 (timestamp - testStarted) ++ "s"

/-- `thirdPartyInfoStr` from `getSummary`. -/
def thirdPartyInfoStr (info : ThirdPartyInfo) : String :=
  (if info.thirdParty = some true then "third party " else "")
  ++ (if info.tracker = some true then "🕵 tracker " else "")

/-- The strings `writeln str` pushes: `str` (when non-empty) then `"\n"`. -/
def ln (str : String) : List String :=
  if str = "" then ["\n"] else [str, "\n"]

/-- The single string `write str` pushes. -/
def wr (str : String) : List String := [str]

/-! ## Field-value call grouping (analysis.ts:85–103) -/

def insertGrouped (k : String) (x : α) : List (String × List α) → List (String × List α)
  | [] => [(k, [x])]
  | (k', xs) :: rest =>
    if k' = k then (k', xs ++ [x]) :: rest else (k', xs) :: insertGrouped k x rest

/-- rambda `groupBy` followed by `Object.entries`: buckets in
first-occurrence key order (the keys contain `'\0'`, hence are never
integer-like, so JS object insertion order applies), members in list
order. -/
def groupByKey (key : α → String) (l : List α) : List (String × List α) :=
  l.foldl (fun acc x => insertGrouped (key x) x acc) []

/-- The composite grouping key of `getSummary` (analysis.ts:93–94):
`` `${selectorChain ? selectorStr(selectorChain) : ''}\0${type}\0${value}\0${stack.join('\n')}` ``
— an absent `selectorChain` contributes the empty string (a present
chain is an array, hence always truthy in JS). -/
def callKey (c : SavedCallEx) : String :=
  (match c.custom.selectorChain with
   | some sc => selectorStr sc
   | none => "")
  ++ "\x00" ++ c.custom.type ++ "\x00" ++ c.custom.value ++ "\x00"
  ++ String.intercalate "\n" c.stack

/-- The representative data kept for each group (from `calls[0]!`). -/
structure FieldCallRep where
  selectorChain : Option (List String)
  type : String
  value : String
  stack : List String
  stackInfo : List (Option ThirdPartyInfo)
  deriving DecidableEq, Repr

/-- The `fieldValueCalls` pipeline of `getSummary` (analysis.ts:90–103):
filter to field-value reads, filter to tracked fill values, group by the
composite key, and emit each group's representative with all member
timestamps.  (Groups are non-empty by construction; the `[]` branch
mirrors the source's unchecked `calls[0]!`.) -/
def fieldValueCalls (opts : FullFieldsCollectorOptions)
    (savedCalls : List SavedCallEx) : List (FieldCallRep × List Int) :=
  let searchValues := [opts.fill.email, opts.fill.password]
  let step1 := savedCalls.filter (fun c => c.description = "HTMLInputElement.prototype.value")
  let step2 := step1.filter (fun c => searchValues.contains c.custom.value)
  (groupByKey callKey step2).map (fun kc =>
    match kc.2 with
    | c :: _ =>
      ({ selectorChain := c.custom.selectorChain, type := c.custom.type,
         value := c.custom.value, stack := c.stack, stackInfo := c.stackInfo },
       kc.2.map (fun c2 => c2.custom.time))
    | [] => ({ selectorChain := none, type := "", value := "", stack := [],
               stackInfo := [] }, []))

/-! ## Frame-stack compression (analysis.ts:114–126) -/

/-- Modelled from the spec: `stackFrameFileRegex` (`src/pageUtils.ts`, not
under src/) matches the file portion of a stack-frame text — "the stack
frame text minus line/column".  Modelled as a split into (text before
match, file portion, text after match): everything before the first colon
is the file (the whole frame when it has no colon), so the match always
succeeds and has no preceding text. -/
def stackFrameFileSplit (frame : String) : Option (String × String × String) :=
  some ("", String.mk (frame.data.takeWhile (fun c => c ≠ ':')),
        String.mk (frame.data.dropWhile (fun c => c ≠ ':')))

/-- The frame-compression loop of `getSummary` (analysis.ts:114–126):
iterate `reverse(zip(stack, stackInfo))` keeping `prevFile`; each frame's
file portion is replaced (via the frame pattern) by `'↓'` when it equals
the previous (inner) frame's file, else by the classification-prefixed
file text; `prevFile` is updated whenever the pattern matches; finally the
produced list is reversed back into display order.  A frame the pattern
does not match is kept unchanged and leaves `prevFile` untouched (the
replace callback is never invoked). -/
def compressFrames (stack : List String) (stackInfo : List (Option ThirdPartyInfo)) :
    List String :=
  let step := fun (st : List String × Option String) (fi : String × Option ThirdPartyInfo) =>
    match stackFrameFileSplit fi.1 with
    | some (pre, file, post) =>
      let ret := if st.2 = some file then "↓"
                 else thirdPartyInfoStr (fi.2.getD ⟨none, none⟩) ++ file
      (st.1 ++ [pre ++ ret ++ post], some file)
    | none => (st.1 ++ [fi.1], st.2)
  ((((stack.zip stackInfo).reverse).foldl step ([], none)).1).reverse

/-! ## Leak annotation and filtering (analysis.ts:47–62) -/

structure AnnotatedLeak where
  leak : LeakedValue
  request : Option RequestData
  visitedTarget : Option VisitedTarget
  deriving DecidableEq, Repr

/-- `leak.requestIndex !== undefined ? collectorData.requests![leak.requestIndex]! : undefined`
(analysis.ts:50): the outer `none` is the `TypeError` of indexing an
absent requests collection; the inner `Option` is the possibly-`undefined`
request (out-of-range indexing yields `undefined`, not a throw). -/
def resolveRequest (data : CollectorData) (leak : LeakedValue) :
    Option (Option RequestData) :=
  match leak.requestIndex with
  | some i =>
    match data.requests with
    | some rs => some (rs.get? i)
    | none => none
  | none => some none

/-- `leak.visitedTargetIndex !== undefined ? collectorData.fields!.visitedTargets[leak.visitedTargetIndex]! : undefined`
(analysis.ts:51). -/
def resolveVisitedTarget (data : CollectorData) (leak : LeakedValue) :
    Option (Option VisitedTarget) :=
  match leak.visitedTargetIndex with
  | some i =>
    match data.fields with
    | some fd => some (fd.visitedTargets.get? i)
    | none => none
  | none => some none

/-- One step of the annotation map (analysis.ts:48–57). -/
def annotateLeak (data : CollectorData) (leak : LeakedValue) : Option AnnotatedLeak :=
  match resolveRequest data leak with
  | none => none
  | some request =>
    match resolveVisitedTarget data leak with
    | none => none
    | some visitedTarget =>
      some { leak := leak, request := request, visitedTarget := visitedTarget }

def annotateLeaks (leaks : List LeakedValue) (data : CollectorData) :
    Option (List AnnotatedLeak) :=
  mapOpt (annotateLeak data) leaks

/-- `leak.request ?? leak.visitedTarget!` seen through its classification
fields; `none` models the `TypeError` of reading a property of
`undefined` when both are absent. -/
def resolvedInfo (a : AnnotatedLeak) : Option ThirdPartyInfo :=
  match a.request with
  | some r => some { thirdParty := r.thirdParty, tracker := r.tracker }
  | none =>
    match a.visitedTarget with
    | some vt => some { thirdParty := vt.thirdParty, tracker := vt.tracker }
    | none => none

/-- `hasDomainInfo` (analysis.ts:58): the check looks only at the FIRST
annotated leak — `!!annotatedLeaks[0] && (annotatedLeaks[0].request ??
annotatedLeaks[0].visitedTarget!).thirdParty !== undefined`. -/
def hasDomainInfoF (annotated : List AnnotatedLeak) : Option Bool :=
  match annotated.head? with
  | none => some false
  | some a =>
    match resolvedInfo a with
    | none => none
    | some info => some info.thirdParty.isSome

/-- The filter body of analysis.ts:59–62: destructure
`request ?? visitedTarget!` (a throw when both are absent) and test
`thirdParty! || tracker!` (JS truthiness: `undefined` is falsy). -/
def importantLeakCheck (a : AnnotatedLeak) : Option Bool :=
  match resolvedInfo a with
  | none => none
  | some info => some (info.thirdParty.getD false || info.tracker.getD false)

/-- `importantLeaks` (analysis.ts:59–62): filtered when `hasDomainInfo`,
untouched otherwise. -/
def importantLeaksF (hasDomainInfo : Bool) (annotated : List AnnotatedLeak) :
    Option (List AnnotatedLeak) :=
  if hasDomainInfo then filterOpt importantLeakCheck annotated
  else some annotated

/-- The annotate → hasDomainInfo → filter pipeline producing the leak
entries `getSummary` renders. -/
def importantLeaksPipeline (leakedValues : List LeakedValue)
    (data : CollectorData) : Option (List AnnotatedLeak) :=
  match annotateLeaks leakedValues data with
  | none => none
  | some annotated =>
    match hasDomainInfoF annotated with
    | none => none
    | some hd => importantLeaksF hd annotated

/-! ## The report sections of `getSummary` (analysis.ts:10–154)

The source pushes strings onto one `strings` array through `write`/
`writeln`; the pushes are strictly section-by-section, so each section is
embedded as the list of strings it pushes (`Option` where it can throw —
a JS exception discards the whole report, which the final `do` models). -/

/-- analysis.ts:22–26. -/
def headerSection (result : CrawlResult) : List String :=
  ln ("Crawl of " ++ result.initialUrl)
  ++ (if result.finalUrl ≠ result.initialUrl then
        ln ("URL after redirects: " ++ result.finalUrl)
      else [])
  ++ ln ("Took " ++ formatDuration (result.testFinished - result.testStarted))
  ++ ln ""

/-- The lines written for one password leak (analysis.ts:38–40):
`leak.attrs?.frameStack ?? leak.frameStack!` throws when both are
absent. -/
def passwordLeakLines (testStarted : Int) (leak : PasswordLeak) :
    Option (List String) :=
  match leak.attrs.bind (·.frameStack) <|> leak.frameStack with
  | none => none
  | some frames =>
    some (ln (timeStr testStarted leak.time ++ " to attribute \"" ++ leak.attributeName
        ++ "\" on element \"" ++ selectorStr leak.selector
        ++ "\"; frame stack (bottom→top):")
      ++ frames.flatMap (fun fr => ln ("\t" ++ fr)))

/-- analysis.ts:34–44: the password-written-to-DOM section, or the
missing-fields-collector warning. -/
def fieldsLeakSection (testStarted : Int) (fieldsData : Option FieldsData) :
    Option (List String) :=
  match fieldsData with
  | some fd =>
    if fd.passwordLeaks ≠ [] then
      match mapOpt (passwordLeakLines testStarted) fd.passwordLeaks with
      | none => none
      | some bodies =>
        some (ln "⚠️ 🔑 Password was written to the DOM:"
          ++ bodies.flatMap id
          ++ ln "If a script then extracts the DOM it might leak the password\n")
    else some []
  | none => some (ln "❌️ No fields collector data, it probably crashed\n")

/-- analysis.ts:46: `if (!collectorData.requests) writeln(...)` (an empty
array is truthy in JS — only an absent collection warns). -/
def requestsWarnSection (requests : Option (List RequestData)) : List String :=
  match requests with
  | none => ln "⚠️ No request collector data found"
  | some _ => []

/-- `leak.visitedTarget?.time ?? leak.request!.wallTime` (analysis.ts:66):
the outer `none` is the `TypeError` of reading `wallTime` off an
`undefined` request; the inner `Option` is a possibly-`undefined`
timestamp. -/
def leakTime (a : AnnotatedLeak) : Option (Option Int) :=
  match a.visitedTarget with
  | some vt => some (some vt.time)
  | none =>
    match a.request with
    | some r => some r.wallTime
    | none => none

/-- The lines written for one rendered leak (analysis.ts:65–79). -/
def leakLines (testStarted : Int) (a : AnnotatedLeak) : Option (List String) :=
  match leakTime a with
  | none => none
  | some reqTime =>
    match resolvedInfo a with
    | none => none
    | some info =>
      let head := wr ((match reqTime with
          | some t => timeStr testStarted t ++ " "
          | none => "")
        ++ a.leak.type ++ " sent in " ++ a.leak.part)
      match a.request with
      | some r =>
        some (head
          ++ wr (" of request to " ++ thirdPartyInfoStr info ++ "\"" ++ r.url ++ "\"")
          ++ (if nonEmpty r.stack then
                ln " by:" ++ (r.stack.getD []).flatMap (fun fr => ln ("\t" ++ fr))
              else [])
          ++ ln "")
      | none =>
        match a.visitedTarget with
        | none => none
        | some vt =>
          some (head ++ ln (" for navigation to " ++ thirdPartyInfoStr info ++ vt.url))

/-- analysis.ts:47–83: the leaked-values section. -/
def leaksSection (testStarted : Int) (leakedValues : Option (List LeakedValue))
    (data : CollectorData) : Option (List String) :=
  match leakedValues with
  | none => some (ln "⚠️ No leaked value data found\n")
  | some lvs =>
    match annotateLeaks lvs data with
    | none => none
    | some annotated =>
      match hasDomainInfoF annotated with
      | none => none
      | some hd =>
        match importantLeaksF hd annotated with
        | none => none
        | some important =>
          if important ≠ [] then
            match mapOpt (leakLines testStarted) important with
            | none => none
            | some bodies =>
              some (ln ("ℹ️ 🖅 Values were sent in web requests"
                  ++ (if hd then " to third parties" else "") ++ ":")
                ++ bodies.flatMap id ++ ln "")
          else
            some (ln ("✔️ No leaks " ++ (if lvs ≠ [] then "to third parties " else "")
              ++ "detected\n"))

/-- analysis.ts:85–133: the field-value-reads section (total — it cannot
throw). -/
def apisSection (testStarted : Int) (opts : FullFieldsCollectorOptions)
    (apis : Option ApisData) : List String :=
  match apis with
  | some ap =>
    let fvc := fieldValueCalls opts ap.savedCalls
    if fvc ≠ [] then
      ln "ℹ️ 🔍 Field value reads:"
      ++ fvc.flatMap (fun ct =>
        wr (String.intercalate " " (ct.2.map (timeStr testStarted)) ++ " access to "
          ++ (if ct.1.value = opts.fill.password then "🔑 " else "📧 ")
          ++ "value of " ++ ct.1.type ++ " field")
        ++ (match ct.1.selectorChain with
            | some sc => wr (" \"" ++ selectorStr sc ++ "\"")
            | none => [])
        ++ ln " by:"
        ++ (compressFrames ct.1.stack ct.1.stackInfo).flatMap (fun fr => ln ("\t" ++ fr))
        ++ ln "")
      ++ ln ""
    else []
  | none => ln "⚠️ No API call data found\n"

/-- analysis.ts:135–151: crawl statistics and collector errors. -/
def statsSection (fieldsData : Option FieldsData) : List String :=
  match fieldsData with
  | some fd =>
    ln "📊 Automated crawl statistics:\n"
    ++ ln ("📑 " ++ toString fd.fields.length ++ " fields found")
    ++ ln ("✒️ " ++ toString (fd.events.filter (fun ev => ev = .fill)).length
        ++ " fields filled")
    ++ ln ("⏎ " ++ toString (fd.events.filter (fun ev => ev = .submit)).length
        ++ " fields submitted")
    ++ ln ("🔗 " ++ toString (match fd.links with
        | some ls => ls.length
        | none => 0) ++ " links found")
    ++ ln ("🖱 " ++ toString (fd.events.filter (fun ev => ev = .clickLink)).length
        ++ " links clicked")
    ++ (if fd.errors ≠ [] then
          ln "\nFields collector errors:"
          ++ fd.errors.flatMap (fun e =>
            ln ("\t" ++ (if e.level = "error" then "❌️" else "⚠️") ++ " "
              ++ (match e.context.head? with
                  | some (some s) => s ++ " "
                  | _ => "")
              ++ e.error))
          ++ ln ""
        else [])
  | none => []

/-- `getSummary` (analysis.ts:10–154) as the ordered list of strings
pushed onto `strings`; `none` models a thrown `TypeError` (which in the
source aborts the whole report). -/
def getSummaryStrings (output : OutputFile) (opts : FullFieldsCollectorOptions) :
    Option (List String) :=
  match fieldsLeakSection output.crawlResult.testStarted output.crawlResult.data.fields with
  | none => none
  | some s2 =>
    match leaksSection output.crawlResult.testStarted output.leakedValues
        output.crawlResult.data with
    | none => none
    | some s4 =>
      some (headerSection output.crawlResult ++ s2
        ++ requestsWarnSection output.crawlResult.data.requests ++ s4
        ++ apisSection output.crawlResult.testStarted opts output.crawlResult.data.apis
        ++ statsSection output.crawlResult.data.fields)

/-- `getSummary`'s return value, `strings.join('')`. -/
def getSummary (output : OutputFile) (opts : FullFieldsCollectorOptions) :
    Option String :=
  (getSummaryStrings output opts).map String.join

/-! ## Claim theorems: C6 (grouping key), C7 (frame compression) -/

def c6Opts : FullFieldsCollectorOptions :=
  { fill := { email := "e@x.com", password := "pw" } }

/-- A field-value read with an absent `selectorChain`. -/
def c6CallA : SavedCallEx :=
  { description := "HTMLInputElement.prototype.value",
    custom := { selectorChain := none, type := "email", value := "e@x.com", time := 1 },
    stack := ["s"], stackInfo := [none] }

/-- A field-value read whose `selectorChain` renders to the empty string. -/
def c6CallB : SavedCallEx :=
  { description := "HTMLInputElement.prototype.value",
    custom := { selectorChain := some [""], type := "email", value := "e@x.com", time := 2 },
    stack := ["s"], stackInfo := [none] }

/-- C6 counterexample: two calls agreeing on type, value and stack, one
with an absent `selectorChain` and one whose `selectorChain` renders to
the empty string, are grouped into ONE bucket by `getSummary`'s pipeline
(the claim puts them in two distinct groups). -/
theorem C6_counterexample :
    (fieldValueCalls c6Opts [c6CallA, c6CallB]).length = 1
    ∧ c6CallA.custom.selectorChain = none
    ∧ c6CallB.custom.selectorChain = some [""]
    ∧ selectorStr [""] = ""
    ∧ c6CallA.custom.type = c6CallB.custom.type
    ∧ c6CallA.custom.value = c6CallB.custom.value
    ∧ c6CallA.stack = c6CallB.stack := by
  exact ⟨by rfl, rfl, rfl, rfl, rfl, rfl, rfl⟩

/-- C6 (amended): the grouping key renders an absent `selectorChain` as
the empty string (`selectorChain ? selectorStr(selectorChain) : ''`), so
an absent chain is NOT its own bucket: it collides with any chain that
renders to the empty string, and two such calls agreeing on type, value
and stack land in one group. -/
theorem C6_amended_absent_chain_collides (c1 c2 : SavedCallEx)
    (h1 : c1.custom.selectorChain = none)
    (h2 : ∃ sc, c2.custom.selectorChain = some sc ∧ selectorStr sc = "")
    (ht : c1.custom.type = c2.custom.type)
    (hv : c1.custom.value = c2.custom.value)
    (hs : c1.stack = c2.stack) :
    callKey c1 = callKey c2
    ∧ groupByKey callKey [c1, c2] = [(callKey c1, [c1, c2])] := by
  obtain ⟨sc, hsc, hren⟩ := h2
  have hk : callKey c1 = callKey c2 := by
    unfold callKey
    simp only [h1, hsc, hren, ht, hv, hs]
  refine ⟨hk, ?_⟩
  unfold groupByKey
  simp [insertGrouped, hk]

/-- Witness for C6 (amended) at the concrete colliding pair. -/
theorem C6_witness :
    callKey c6CallA = callKey c6CallB
    ∧ groupByKey callKey [c6CallA, c6CallB] = [(callKey c6CallA, [c6CallA, c6CallB])] :=
  C6_amended_absent_chain_collides c6CallA c6CallB rfl ⟨[""], rfl, rfl⟩ rfl rfl rfl

/-- C7 counterexample: on a stack of three `a.js` frames followed by one
`b.js` frame (with no per-frame classification), the compression renders,
in final display order, two repeat markers, then `a.js`, then `b.js` —
neither the claimed `a.js, ↓, ↓, b.js` nor its mirror `b.js, ↓, ↓, a.js`. -/
theorem C7_counterexample :
    compressFrames ["a.js", "a.js", "a.js", "b.js"] [none, none, none, none]
      = ["↓", "↓", "a.js", "b.js"]
    ∧ (["↓", "↓", "a.js", "b.js"] : List String) ≠ ["a.js", "↓", "↓", "b.js"]
    ∧ (["↓", "↓", "a.js", "b.js"] : List String) ≠ ["b.js", "↓", "↓", "a.js"] := by
  exact ⟨by rfl, by decide, by decide⟩

/-- C7 (amended): for a stack of three consecutive `a.js` frames followed
by one `b.js` frame, compression yields exactly two file-labeled lines
and two repeat markers, but in final display order the markers come
first: marker, marker, `a.js` (classification-prefixed, taken from the
third frame's info), `b.js` (classification-prefixed) — the annotation
sits on the LAST frame of a repeated run, not the first. -/
theorem C7_amended_markers_before_annotation (i1 i2 i3 i4 : Option ThirdPartyInfo) :
    compressFrames ["a.js", "a.js", "a.js", "b.js"] [i1, i2, i3, i4]
      = ["↓", "↓", thirdPartyInfoStr (i3.getD ⟨none, none⟩) ++ "a.js",
         thirdPartyInfoStr (i4.getD ⟨none, none⟩) ++ "b.js"] := by
  have ha : stackFrameFileSplit "a.js" = some ("", "a.js", "") := rfl
  have hb : stackFrameFileSplit "b.js" = some ("", "b.js", "") := rfl
  simp [compressFrames, ha, hb]

/-! ## Claim theorems: C2 (classification-availability check) -/

/-- The pure importance filter of analysis.ts:59–62
(`thirdParty! || tracker!` over the resolved source). -/
def importantPred (a : AnnotatedLeak) : Bool :=
  let info := (resolvedInfo a).getD ⟨none, none⟩
  info.thirdParty.getD false || info.tracker.getD false

theorem filterOpt_important_eq_filter {annotated : List AnnotatedLeak}
    (hres : ∀ a ∈ annotated, (resolvedInfo a).isSome) :
    filterOpt importantLeakCheck annotated = some (annotated.filter importantPred) := by
  induction annotated with
  | nil => rfl
  | cons a as ih =>
    have ha := hres a (List.mem_cons_self a as)
    obtain ⟨info, hinfo⟩ := Option.isSome_iff_exists.mp ha
    have ih' := ih (fun x hx => hres x (List.mem_cons_of_mem a hx))
    have hp : importantPred a = (info.thirdParty.getD false || info.tracker.getD false) := by
      unfold importantPred
      rw [hinfo]
      rfl
    have hc : importantLeakCheck a
        = some (info.thirdParty.getD false || info.tracker.getD false) := by
      unfold importantLeakCheck
      rw [hinfo]
    simp only [filterOpt]
    rw [hc, ih', List.filter_cons, hp]

def c2Request0 : RequestData := { url := "r0" }

def c2Request1 : RequestData := { url := "r1", thirdParty := some true }

def c2Data : CollectorData := { requests := some [c2Request0, c2Request1] }

def c2Leaks : List LeakedValue :=
  [{ requestIndex := some 0, part := "url", type := "password" },
   { requestIndex := some 1, part := "url", type := "password" }]

def c2Ann0 : AnnotatedLeak :=
  { leak := { requestIndex := some 0, part := "url", type := "password" },
    request := some c2Request0, visitedTarget := none }

def c2Ann1 : AnnotatedLeak :=
  { leak := { requestIndex := some 1, part := "url", type := "password" },
    request := some c2Request1, visitedTarget := none }

/-- C2 counterexample: the second resolved location carries a defined
`thirdParty` (so, per the claim, classification is available and the
rendered entries should be exactly the third-party/tracker ones — here
only the second), yet the pipeline keeps BOTH entries, including the
first, whose source has neither `thirdParty === true` nor
`tracker === true`: the code consults only the FIRST entry. -/
theorem C2_counterexample :
    annotateLeaks c2Leaks c2Data = some [c2Ann0, c2Ann1]
    ∧ resolvedInfo c2Ann1 = some { thirdParty := some true, tracker := none }
    ∧ resolvedInfo c2Ann0 = some { thirdParty := none, tracker := none }
    ∧ importantLeaksPipeline c2Leaks c2Data = some [c2Ann0, c2Ann1]
    ∧ [c2Ann0, c2Ann1].filter importantPred = [c2Ann1] := by
  exact ⟨by rfl, by rfl, by rfl, by rfl, by rfl⟩

/-- C2 (amended): classification availability is decided solely by the
FIRST annotated leak's resolved location.  If its `thirdParty` is
defined, entries are filtered to those whose resolved source has
`thirdParty === true` or `tracker === true`; if the list is empty or the
first location's `thirdParty` is undefined, every entry is kept. -/
theorem C2_amended_first_location_decides_filtering
    (lvs : List LeakedValue) (data : CollectorData)
    (annotated : List AnnotatedLeak)
    (hann : annotateLeaks lvs data = some annotated)
    (hres : ∀ a ∈ annotated, (resolvedInfo a).isSome) :
    importantLeaksPipeline lvs data = some
      (match annotated.head? with
       | some a0 =>
         if ((resolvedInfo a0).getD ⟨none, none⟩).thirdParty.isSome
         then annotated.filter importantPred
         else annotated
       | none => annotated) := by
  cases hh : annotated.head? with
  | none =>
    have hnil : annotated = [] := by
      cases annotated with
      | nil => rfl
      | cons x xs => simp at hh
    subst hnil
    unfold importantLeaksPipeline
    rw [hann]
    rfl
  | some a0 =>
    have ha0mem : a0 ∈ annotated := by
      cases annotated with
      | nil => simp at hh
      | cons x xs =>
        simp only [List.head?_cons] at hh
        cases hh
        exact List.mem_cons_self _ _
    obtain ⟨info0, hinfo0⟩ := Option.isSome_iff_exists.mp (hres a0 ha0mem)
    have hhd : hasDomainInfoF annotated = some info0.thirdParty.isSome := by
      unfold hasDomainInfoF
      rw [hh]
      simp [hinfo0]
    have e1 : importantLeaksPipeline lvs data
        = importantLeaksF info0.thirdParty.isSome annotated := by
      unfold importantLeaksPipeline
      rw [hann]
      show (match hasDomainInfoF annotated with
            | none => none
            | some hd => importantLeaksF hd annotated) = _
      rw [hhd]
    rw [e1]
    show _ = some (if ((resolvedInfo a0).getD ⟨none, none⟩).thirdParty.isSome = true
      then List.filter importantPred annotated else annotated)
    rw [hinfo0]
    simp only [Option.getD_some]
    by_cases hdef : info0.thirdParty.isSome = true
    · rw [if_pos hdef, hdef]
      unfold importantLeaksF
      rw [if_pos rfl]
      exact filterOpt_important_eq_filter hres
    · rw [if_neg hdef]
      have hfalse : info0.thirdParty.isSome = false := by
        simpa using hdef
      rw [hfalse]
      unfold importantLeaksF
      simp

/-- Witness for C2 (amended) at the counterexample input. -/
theorem C2_witness :
    importantLeaksPipeline c2Leaks c2Data = some
      (match [c2Ann0, c2Ann1].head? with
       | some a0 =>
         if ((resolvedInfo a0).getD ⟨none, none⟩).thirdParty.isSome
         then [c2Ann0, c2Ann1].filter importantPred
         else [c2Ann0, c2Ann1]
       | none => [c2Ann0, c2Ann1]) :=
  C2_amended_first_location_decides_filtering c2Leaks c2Data [c2Ann0, c2Ann1]
    (by rfl) (by decide)

/-! ## Claim theorems: C4 (report survives missing collections) -/

theorem mapOpt_isSome_of (f : α → Option β) {l : List α}
    (h : ∀ a ∈ l, (f a).isSome) : ∃ ys, mapOpt f l = some ys := by
  induction l with
  | nil => exact ⟨[], rfl⟩
  | cons a as ih =>
    obtain ⟨y, hy⟩ := Option.isSome_iff_exists.mp (h a (List.mem_cons_self a as))
    obtain ⟨ys, hys⟩ := ih (fun x hx => h x (List.mem_cons_of_mem a hx))
    refine ⟨y :: ys, ?_⟩
    simp only [mapOpt]
    rw [hy, hys]

theorem mapOpt_mem {f : α → Option β} {l : List α} {ys : List β}
    (h : mapOpt f l = some ys) : ∀ y ∈ ys, ∃ a ∈ l, f a = some y := by
  induction l generalizing ys with
  | nil =>
    simp only [mapOpt] at h
    cases h
    intro y hy
    cases hy
  | cons a as ih =>
    simp only [mapOpt] at h
    cases hfa : f a with
    | none =>
      simp only [hfa] at h
      exact Option.noConfusion h
    | some y0 =>
      simp only [hfa] at h
      cases hrest : mapOpt f as with
      | none =>
        simp only [hrest] at h
        exact Option.noConfusion h
      | some ys0 =>
        simp only [hrest] at h
        cases h
        intro y hy
        rcases List.mem_cons.mp hy with hy | hy
        · subst hy
          exact ⟨a, List.mem_cons_self a as, hfa⟩
        · obtain ⟨x, hx, hfx⟩ := ih hrest y hy
          exact ⟨x, List.mem_cons_of_mem a hx, hfx⟩

theorem filterOpt_isSome_of (p : α → Option Bool) {l : List α}
    (h : ∀ a ∈ l, (p a).isSome) :
    ∃ l2, filterOpt p l = some l2 ∧ ∀ x ∈ l2, x ∈ l := by
  induction l with
  | nil => exact ⟨[], rfl, fun x hx => absurd hx (by simp)⟩
  | cons a as ih =>
    obtain ⟨b, hb⟩ := Option.isSome_iff_exists.mp (h a (List.mem_cons_self a as))
    obtain ⟨l2, hl2, hsub⟩ := ih (fun x hx => h x (List.mem_cons_of_mem a hx))
    cases b with
    | true =>
      refine ⟨a :: l2, ?_, ?_⟩
      · simp only [filterOpt]
        rw [hb, hl2]
        rfl
      · intro x hx
        rcases List.mem_cons.mp hx with hx | hx
        · subst hx; exact List.mem_cons_self _ _
        · exact List.mem_cons_of_mem a (hsub x hx)
    | false =>
      refine ⟨l2, ?_, fun x hx => List.mem_cons_of_mem a (hsub x hx)⟩
      simp only [filterOpt]
      rw [hb, hl2]
      rfl

theorem resolvedInfo_isSome {a : AnnotatedLeak}
    (h : (a.request.isSome || a.visitedTarget.isSome) = true) :
    (resolvedInfo a).isSome := by
  unfold resolvedInfo
  cases hreq : a.request with
  | some r => rfl
  | none =>
    cases hvt : a.visitedTarget with
    | none =>
      rw [hreq, hvt] at h
      simp at h
    | some vt => rfl

/-- Whether `leak.attrs?.frameStack ?? leak.frameStack!` yields a frame
stack (its absence makes `getSummary` throw). -/
def passwordLeakHasStack (leak : PasswordLeak) : Bool :=
  (leak.attrs.bind (·.frameStack) <|> leak.frameStack).isSome

theorem passwordLeakLines_isSome {t : Int} {leak : PasswordLeak}
    (h : passwordLeakHasStack leak = true) :
    (passwordLeakLines t leak).isSome := by
  unfold passwordLeakHasStack at h
  unfold passwordLeakLines
  cases hor : leak.attrs.bind (·.frameStack) <|> leak.frameStack with
  | none => rw [hor] at h; exact Bool.noConfusion h
  | some fs => rfl

theorem leakLines_isSome {t : Int} {a : AnnotatedLeak}
    (h : (a.request.isSome || a.visitedTarget.isSome) = true) :
    (leakLines t a).isSome := by
  obtain ⟨info, hinfo⟩ := Option.isSome_iff_exists.mp (resolvedInfo_isSome h)
  unfold leakLines
  cases hreq : a.request with
  | some r =>
    cases hvt : a.visitedTarget with
    | some vt =>
      have hlt : leakTime a = some (some vt.time) := by
        unfold leakTime
        rw [hvt]
      rw [hlt, hinfo]
      rfl
    | none =>
      have hlt : leakTime a = some r.wallTime := by
        unfold leakTime
        rw [hvt, hreq]
      rw [hlt, hinfo]
      rfl
  | none =>
    cases hvt : a.visitedTarget with
    | none =>
      rw [hreq, hvt] at h
      simp at h
    | some vt =>
      have hlt : leakTime a = some (some vt.time) := by
        unfold leakTime
        rw [hvt]
      rw [hlt, hinfo]
      rfl

/-- Whether a leaked-value entry resolves without throwing to at least one
concrete location (request or visited target). -/
def leakResolvable (data : CollectorData) (lv : LeakedValue) : Bool :=
  match annotateLeak data lv with
  | some a => a.request.isSome || a.visitedTarget.isSome
  | none => false

theorem fieldsLeakSection_some (t : Int) (fd? : Option FieldsData)
    (hpw : ∀ fd, fd? = some fd →
      ∀ leak ∈ fd.passwordLeaks, passwordLeakHasStack leak = true) :
    (fieldsLeakSection t fd?).isSome := by
  cases fd? with
  | none => rfl
  | some fd =>
    have hpw' := hpw fd rfl
    simp only [fieldsLeakSection]
    by_cases hne : fd.passwordLeaks = []
    · simp [hne]
    · obtain ⟨bodies, hbod⟩ :=
        mapOpt_isSome_of (passwordLeakLines t)
          (fun leak hmem => passwordLeakLines_isSome (hpw' leak hmem))
      simp [hne, hbod]

theorem leaksSection_some (t : Int) (lvs? : Option (List LeakedValue))
    (data : CollectorData)
    (hlv : ∀ lvs, lvs? = some lvs → ∀ lv ∈ lvs, leakResolvable data lv = true) :
    (leaksSection t lvs? data).isSome := by
  cases lvs? with
  | none => rfl
  | some lvs =>
    have hlv' := hlv lvs rfl
    have hann_each : ∀ lv ∈ lvs, (annotateLeak data lv).isSome := by
      intro lv hmem
      have h1 := hlv' lv hmem
      unfold leakResolvable at h1
      cases hal : annotateLeak data lv with
      | none =>
        simp only [hal] at h1
        exact Bool.noConfusion h1
      | some a => rfl
    obtain ⟨annotated, hann⟩ := mapOpt_isSome_of (annotateLeak data) hann_each
    have hann2 : annotateLeaks lvs data = some annotated := hann
    have hres : ∀ a ∈ annotated, (a.request.isSome || a.visitedTarget.isSome) = true := by
      intro a ha
      obtain ⟨lv, hlvmem, hfa⟩ := mapOpt_mem hann a ha
      have h1 := hlv' lv hlvmem
      unfold leakResolvable at h1
      simp only [hfa] at h1
      exact h1
    have hresinfo : ∀ a ∈ annotated, (resolvedInfo a).isSome :=
      fun a ha => resolvedInfo_isSome (hres a ha)
    obtain ⟨hd, hhd⟩ : ∃ hd, hasDomainInfoF annotated = some hd := by
      cases annotated with
      | nil => exact ⟨false, rfl⟩
      | cons a as =>
        obtain ⟨info, hinfo⟩ :=
          Option.isSome_iff_exists.mp (hresinfo a (List.mem_cons_self a as))
        refine ⟨info.thirdParty.isSome, ?_⟩
        show (match resolvedInfo a with
              | none => none
              | some info => some info.thirdParty.isSome) = _
        rw [hinfo]
    obtain ⟨important, himp, hsub⟩ :
        ∃ im, importantLeaksF hd annotated = some im ∧ ∀ x ∈ im, x ∈ annotated := by
      cases hd with
      | false => exact ⟨annotated, rfl, fun x hx => hx⟩
      | true =>
        have hp : ∀ a ∈ annotated, (importantLeakCheck a).isSome := by
          intro a ha
          obtain ⟨info, hinfo⟩ := Option.isSome_iff_exists.mp (hresinfo a ha)
          unfold importantLeakCheck
          rw [hinfo]
          rfl
        obtain ⟨l2, hl2, hsub2⟩ := filterOpt_isSome_of importantLeakCheck hp
        refine ⟨l2, ?_, hsub2⟩
        unfold importantLeaksF
        rw [if_pos rfl]
        exact hl2
    simp only [leaksSection, hann2, hhd, himp]
    by_cases hne : important = []
    · simp [hne]
    · obtain ⟨bodies, hbod⟩ :=
        mapOpt_isSome_of (leakLines t)
          (fun a ha => leakLines_isSome (hres a (hsub a ha)))
      simp [hne, hbod]

/-- An input whose leaked values reference the absent requests
collection. -/
def c4BadOutput : OutputFile :=
  { crawlResult :=
      { initialUrl := "i", finalUrl := "f", testStarted := 0,
        testFinished := 1, data := {} },
    leakedValues := some [{ requestIndex := some 0, part := "url", type := "password" }] }

def c4Opts : FullFieldsCollectorOptions := { fill := { email := "e", password := "p" } }

/-- C4 counterexample: with the request collector data entirely absent
(and a leaked value referencing it), `getSummary` throws
(`collectorData.requests![0]` is a property access on `undefined`) instead
of rendering a report with a warning line. -/
theorem C4_counterexample :
    c4BadOutput.crawlResult.data.requests = none
    ∧ getSummary c4BadOutput c4Opts = none := by
  exact ⟨rfl, rfl⟩

/-- C4 (amended): whenever every password leak carries a frame stack and
every leaked-value entry resolves to a location in a PRESENT collection,
`getSummary` renders the full report, with an explicit warning line for
each absent section (fields collector, request collector, leaked-value
data); but a leaked value referencing an absent collection makes it
throw. -/
theorem C4_amended_warnings_when_resolvable (output : OutputFile)
    (opts : FullFieldsCollectorOptions)
    (hpw : ∀ fd, output.crawlResult.data.fields = some fd →
      ∀ leak ∈ fd.passwordLeaks, passwordLeakHasStack leak = true)
    (hlv : ∀ lvs, output.leakedValues = some lvs →
      ∀ lv ∈ lvs, leakResolvable output.crawlResult.data lv = true) :
    ∃ ss, getSummaryStrings output opts = some ss
      ∧ (output.crawlResult.data.fields = none →
          "❌️ No fields collector data, it probably crashed\n" ∈ ss)
      ∧ (output.crawlResult.data.requests = none →
          "⚠️ No request collector data found" ∈ ss)
      ∧ (output.leakedValues = none →
          "⚠️ No leaked value data found\n" ∈ ss) := by
  obtain ⟨s2, hs2⟩ := Option.isSome_iff_exists.mp
    (fieldsLeakSection_some output.crawlResult.testStarted output.crawlResult.data.fields hpw)
  obtain ⟨s4, hs4⟩ := Option.isSome_iff_exists.mp
    (leaksSection_some output.crawlResult.testStarted output.leakedValues
      output.crawlResult.data hlv)
  refine ⟨headerSection output.crawlResult ++ s2
    ++ requestsWarnSection output.crawlResult.data.requests ++ s4
    ++ apisSection output.crawlResult.testStarted opts output.crawlResult.data.apis
    ++ statsSection output.crawlResult.data.fields, ?_, ?_, ?_, ?_⟩
  · simp only [getSummaryStrings, hs2, hs4]
  · intro hf
    have h2 : s2 = ln "❌️ No fields collector data, it probably crashed\n" := by
      rw [hf] at hs2
      exact (Option.some.inj hs2).symm
    have hmem : "❌️ No fields collector data, it probably crashed\n" ∈ s2 := by
      rw [h2]
      simp [ln]
    simp only [List.mem_append]
    exact Or.inl (Or.inl (Or.inl (Or.inl (Or.inr hmem))))
  · intro hr
    have hmem : "⚠️ No request collector data found"
        ∈ requestsWarnSection output.crawlResult.data.requests := by
      rw [hr]
      simp [requestsWarnSection, ln]
    simp only [List.mem_append]
    exact Or.inl (Or.inl (Or.inl (Or.inr hmem)))
  · intro hl
    have h4 : s4 = ln "⚠️ No leaked value data found\n" := by
      rw [hl] at hs4
      exact (Option.some.inj hs4).symm
    have hmem : "⚠️ No leaked value data found\n" ∈ s4 := by
      rw [h4]
      simp [ln]
    simp only [List.mem_append]
    exact Or.inl (Or.inl (Or.inr hmem))

/-- An input with all three collections absent. -/
def c4EmptyOutput : OutputFile :=
  { crawlResult :=
      { initialUrl := "i", finalUrl := "f", testStarted := 0,
        testFinished := 1, data := {} } }

/-- Witness for C4 (amended): with fields, requests and leaked values all
absent the report renders with all three warnings. -/
theorem C4_witness :
    ∃ ss, getSummaryStrings c4EmptyOutput c4Opts = some ss
      ∧ (c4EmptyOutput.crawlResult.data.fields = none →
          "❌️ No fields collector data, it probably crashed\n" ∈ ss)
      ∧ (c4EmptyOutput.crawlResult.data.requests = none →
          "⚠️ No request collector data found" ∈ ss)
      ∧ (c4EmptyOutput.leakedValues = none →
          "⚠️ No leaked value data found\n" ∈ ss) :=
  C4_amended_warnings_when_resolvable c4EmptyOutput c4Opts
    (fun _ h => Option.noConfusion h) (fun _ h => Option.noConfusion h)

/-! ## Shadow-piercing query engine (`src/puppeteerUtils.ts`, C8/C10)

DOM model: an element carries an identifier, whether it matches the
(fixed) selector — `matches.call(child, selector)` through the captured
original accessor — an optional open shadow root (its child elements) and
its light-tree children.  Documents/shadow roots passed as query roots
are nodes whose own `matchesSel` is irrelevant (the tree walk never tests
the root) and whose `shadow` is `none` unless the root is an element with
an attached shadow root.  The prototype-tampering defence (reading
`shadowRoot`/`matches` through captured original accessors) is what makes
these fields reliable; the model reads them directly. -/

inductive ENode where
  | mk (nodeId : Nat) (matchesSel : Bool) (shadow : Option (List ENode))
      (children : List ENode)

def ENode.nodeId : ENode → Nat
  | .mk i _ _ _ => i

def ENode.matchesSel : ENode → Bool
  | .mk _ m _ _ => m

def ENode.shadow : ENode → Option (List ENode)
  | .mk _ _ sh _ => sh

def ENode.children : ENode → List ENode
  | .mk _ _ _ cs => cs

mutual
/-- The elements yielded for one element `e` encountered by the tree walk
of `examineChildren` (puppeteerUtils.ts:60–75): `e` itself if it matches,
then — eagerly, before the walker advances into `e`'s light children —
everything from `e`'s shadow root, then the walk of `e`'s light
children. -/
def examineElem : ENode → List ENode
  | .mk i m sh cs =>
    (if m then [ENode.mk i m sh cs] else [])
    ++ (match sh with
        | some scs => examineList scs
        | none => [])
    ++ examineList cs
/-- The walk over a list of sibling elements, left to right. -/
def examineList : List ENode → List ENode
  | [] => []
  | e :: es => examineElem e ++ examineList es
end

/-- `robustPierceQueryHandler.queryAll` (puppeteerUtils.ts:50–78): the
root's shadow subtree is examined first (the `node instanceof
elementProto.constructor` guard — non-elements have no shadow, here
`shadow = none`), then the tree walk over the root's descendants; the
root itself is never yielded (`// First result would be node itself`). -/
def queryAll (root : ENode) : List ENode :=
  (match root.shadow with
   | some scs => examineList scs
   | none => [])
  ++ examineList root.children

/-- `robustPierceQueryHandler.queryOne` (puppeteerUtils.ts:80–109): the
source duplicates `queryAll`'s generator verbatim (`// Code duplicated
from queryAll because these will be injected`) and takes the first
yielded element (`const [first] = examineChildren(node); return first ??
null`); the shared `examineElem`/`examineList` embed that duplicated
generator. -/
def queryOne (root : ENode) : Option ENode :=
  ((match root.shadow with
    | some scs => examineList scs
    | none => [])
   ++ examineList root.children).head?

mutual
/-- Every element of `e`'s piercing subtree, in the order the claim
describes: the element itself, then its shadow subtree (eagerly, right
after the element), then its light-tree descendants. -/
def descElem : ENode → List ENode
  | .mk i m sh cs =>
    [ENode.mk i m sh cs]
    ++ (match sh with
        | some scs => descList scs
        | none => [])
    ++ descList cs
def descList : List ENode → List ENode
  | [] => []
  | e :: es => descElem e ++ descList es
end

/-- All proper pierce-descendants of a root, shadow subtree first, in the
claim's depth-first order. -/
def pierceDescendants (root : ENode) : List ENode :=
  (match root.shadow with
   | some scs => descList scs
   | none => [])
  ++ descList root.children

theorem examineList_eq_filter_fuel :
    ∀ (n : Nat) (l : List ENode), sizeOf l ≤ n →
      examineList l = (descList l).filter (fun e => e.matchesSel) := by
  intro n
  induction n with
  | zero =>
    intro l hl
    cases l with
    | nil => rfl
    | cons e es =>
      exfalso
      simp only [List.cons.sizeOf_spec] at hl
      omega
  | succ n ih =>
    intro l hl
    cases l with
    | nil => rfl
    | cons e es =>
      cases e with
      | mk i m sh cs =>
        cases sh with
        | none =>
          have hl2 := hl
          simp only [List.cons.sizeOf_spec, ENode.mk.sizeOf_spec] at hl2
          simp only [examineList, descList, examineElem, descElem, List.filter_append,
            List.filter_nil]
          have hifm : (if m then [ENode.mk i m none cs] else [])
              = List.filter (fun e => e.matchesSel) [ENode.mk i m none cs] := by
            cases m <;> simp [ENode.matchesSel, List.filter]
          have hcs : examineList cs
              = List.filter (fun e => e.matchesSel) (descList cs) := by
            apply ih
            omega
          have hes2 : examineList es
              = List.filter (fun e => e.matchesSel) (descList es) := by
            apply ih
            omega
          rw [hifm, hcs, hes2]
        | some scs =>
          have hl2 := hl
          simp only [List.cons.sizeOf_spec, ENode.mk.sizeOf_spec,
            Option.some.sizeOf_spec] at hl2
          simp only [examineList, descList, examineElem, descElem, List.filter_append]
          have hifm : (if m then [ENode.mk i m (some scs) cs] else [])
              = List.filter (fun e => e.matchesSel) [ENode.mk i m (some scs) cs] := by
            cases m <;> simp [ENode.matchesSel, List.filter]
          have hscs : examineList scs
              = List.filter (fun e => e.matchesSel) (descList scs) := by
            apply ih
            omega
          have hcs : examineList cs
              = List.filter (fun e => e.matchesSel) (descList cs) := by
            apply ih
            omega
          have hes2 : examineList es
              = List.filter (fun e => e.matchesSel) (descList es) := by
            apply ih
            omega
          rw [hifm, hscs, hcs, hes2]

theorem examineList_eq_filter (l : List ENode) :
    examineList l = (descList l).filter (fun e => e.matchesSel) :=
  examineList_eq_filter_fuel (sizeOf l) l (Nat.le_refl _)

/-- `queryAll` returns exactly the matching elements of the piercing
subtree, in its depth-first order. -/
theorem queryAll_eq_filter (root : ENode) :
    queryAll root = (pierceDescendants root).filter (fun e => e.matchesSel) := by
  unfold queryAll pierceDescendants
  rw [List.filter_append]
  have hsh : (match root.shadow with
      | some scs => examineList scs
      | none => []) =
      List.filter (fun e => e.matchesSel) (match root.shadow with
        | some scs => descList scs
        | none => []) := by
    cases root.shadow with
    | some scs => exact examineList_eq_filter scs
    | none => rfl
  rw [hsh, examineList_eq_filter]

mutual
/-- The plain, non-piercing light-tree walk the claim contrasts with
(modelled from the claim's words — it has no source counterpart): test
every light-tree descendant, never descending into shadow roots. -/
def plainElem : ENode → List ENode
  | .mk i m sh cs =>
    (if m then [ENode.mk i m sh cs] else []) ++ plainList cs
def plainList : List ENode → List ENode
  | [] => []
  | e :: es => plainElem e ++ plainList es
end

def plainQueryAll (root : ENode) : List ENode := plainList root.children

/-- A matching element hidden inside an attached shadow root. -/
def c8ShadowMatch : ENode := .mk 2 true none []

/-- A root whose sole light child hosts a shadow root containing
`c8ShadowMatch`. -/
def c8Root : ENode := .mk 0 false none [.mk 1 false (some [c8ShadowMatch]) []]

/-- C8: `queryAll` returns exactly the matching elements among the
pierce-reachable descendants of the root, in the depth-first order in
which the root's shadow subtree precedes its light-tree descendants and
each element's shadow subtree is examined immediately after the element
itself; in particular, a matching descendant inside an attached shadow
root is found even though the plain non-piercing light-tree walk misses
it. -/
theorem C8_shadow_piercing_queryAll :
    (∀ root : ENode,
      queryAll root = (pierceDescendants root).filter (fun e => e.matchesSel))
    ∧ queryAll c8Root = [c8ShadowMatch]
    ∧ plainQueryAll c8Root = [] := by
  refine ⟨queryAll_eq_filter, by rfl, by rfl⟩

/-- C10: `queryOne` (whose generator is a verbatim duplicate of
`queryAll`'s) returns exactly the head of `queryAll`'s result list, and
`null` exactly when that list is empty. -/
theorem C10_queryOne_is_head_of_queryAll (root : ENode) :
    queryOne root = (queryAll root).head?
    ∧ (queryOne root = none ↔ queryAll root = []) := by
  refine ⟨rfl, ?_⟩
  show (queryAll root).head? = none ↔ queryAll root = []
  cases queryAll root <;> simp

/-! ## Remote object unwrapper (`src/puppeteerUtils.ts`, C9)

A remote value (CDP `RemoteObject` reachable through a `JSHandle`) is a
primitive (returned by `jsonValue()`), a function, a symbol, or an object
with a `subtype`, a `className` and its own properties (as returned by
`getProperties()`, in enumeration order; for array-subtype objects the
indexed properties in index order). -/

inductive JSPrim where
  | str (s : String)
  | num (n : Int)
  | boolean (b : Bool)
  | bigint (n : Int)
  | undef
  deriving DecidableEq, Repr

inductive RemoteVal where
  | prim (v : JSPrim)
  | func
  | sym
  | obj (subtype : Option String) (className : String)
      (props : List (String × RemoteVal))

/-- The host-side result of unwrapping: inlined data, or a retained
opaque handle. -/
inductive Unwrapped where
  | prim (v : JSPrim)
  | nullV
  | handle (h : RemoteVal)
  | obj (props : List (String × Unwrapped))
  | arr (elems : List Unwrapped)

mutual
/-- `unwrapHandleEx` (puppeteerUtils.ts:122–148): functions and symbols
stay wrapped; objects with `undefined`/`proxy` subtype are inlined
property-by-property when `shouldUnwrap(className)` holds, `null`-subtype
becomes host `null`, `array`-subtype becomes an ordered sequence, every
other object stays a handle; all other types are returned via
`jsonValue()`. -/
def unwrapHandleEx (h : RemoteVal) (shouldUnwrap : String → Bool) : Unwrapped :=
  match h with
  | .func => .handle .func
  | .sym => .handle .sym
  | .obj subtype className props =>
    if subtype = none ∨ subtype = some "proxy" then
      if shouldUnwrap className then .obj (unwrapProps props shouldUnwrap)
      else .handle (.obj subtype className props)
    else if subtype = some "null" then .nullV
    else if subtype = some "array" then .arr (unwrapElems props shouldUnwrap)
    else .handle (.obj subtype className props)
  | .prim v => .prim v
/-- `Object.fromEntries(await Promise.all([...getProperties()].map(...)))`
as an ordered association list. -/
def unwrapProps (props : List (String × RemoteVal)) (shouldUnwrap : String → Bool) :
    List (String × Unwrapped) :=
  match props with
  | [] => []
  | (k, v) :: rest => (k, unwrapHandleEx v shouldUnwrap) :: unwrapProps rest shouldUnwrap
/-- `await Promise.all([...getProperties()].map(async ([, v]) => ...))`. -/
def unwrapElems (props : List (String × RemoteVal)) (shouldUnwrap : String → Bool) :
    List Unwrapped :=
  match props with
  | [] => []
  | (_, v) :: rest => unwrapHandleEx v shouldUnwrap :: unwrapElems rest shouldUnwrap
end

/-- `unwrapHandle` (puppeteerUtils.ts:115–117):
`unwrapHandleEx(handle, () => true)`. -/
def unwrapHandle (h : RemoteVal) : Unwrapped :=
  unwrapHandleEx h (fun _ => true)

/-- The default value of `unwrapHandleEx`'s `shouldUnwrap` parameter,
used when a caller omits it:
`className => ['Object', 'Proxy'].includes(className)`. -/
def defaultShouldUnwrap (className : String) : Bool :=
  ["Object", "Proxy"].contains className

/-- C9 counterexample: `unwrapHandle` is NOT `unwrapHandleEx` with a
predicate true on exactly two class names.  No such predicate agrees with
it on every handle (a plain object whose class name lies outside the two
is inlined by `unwrapHandle` but kept as a handle by the predicate), and
in particular the two-class default predicate of `unwrapHandleEx`
disagrees with `unwrapHandle` on `{subtype: undefined, className: "Foo"}`. -/
theorem C9_counterexample :
    (¬ ∃ p : String → Bool,
      (∃ a b : String, a ≠ b ∧ ∀ c, p c = true ↔ (c = a ∨ c = b))
      ∧ ∀ h : RemoteVal, unwrapHandle h = unwrapHandleEx h p)
    ∧ unwrapHandle (RemoteVal.obj none "Foo" [])
      ≠ unwrapHandleEx (RemoteVal.obj none "Foo" []) defaultShouldUnwrap := by
  constructor
  · rintro ⟨p, ⟨a, b, hab, hp⟩, hall⟩
    have hx1 : ("x" : String).length = 1 := rfl
    have hlen : (a ++ b ++ "x").length = a.length + b.length + 1 := by
      simp only [String.length_append, hx1]
    have hca : (a ++ b ++ "x") ≠ a := by
      intro hEq
      have hc := congrArg String.length hEq
      rw [hlen] at hc
      omega
    have hcb : (a ++ b ++ "x") ≠ b := by
      intro hEq
      have hc := congrArg String.length hEq
      rw [hlen] at hc
      omega
    have hpc : p (a ++ b ++ "x") = false := by
      cases hv : p (a ++ b ++ "x") with
      | false => rfl
      | true =>
        rcases (hp _).mp hv with hEq | hEq
        · exact absurd hEq hca
        · exact absurd hEq hcb
    have h1 := hall (.obj none (a ++ b ++ "x") [])
    have hL : unwrapHandle (RemoteVal.obj none (a ++ b ++ "x") []) = .obj [] := rfl
    have hR : unwrapHandleEx (RemoteVal.obj none (a ++ b ++ "x") []) p
        = .handle (.obj none (a ++ b ++ "x") []) := by
      unfold unwrapHandleEx
      simp [hpc]
    rw [hL, hR] at h1
    exact Unwrapped.noConfusion h1
  · have hf : defaultShouldUnwrap "Foo" = false := by decide
    have hL : unwrapHandle (RemoteVal.obj none "Foo" []) = .obj [] := rfl
    have hR : unwrapHandleEx (RemoteVal.obj none "Foo" []) defaultShouldUnwrap
        = .handle (.obj none "Foo" []) := by
      unfold unwrapHandleEx
      simp [hf]
    rw [hL, hR]
    intro hc
    exact Unwrapped.noConfusion hc

/-- C9 (amended): the two variants share the recursive unwrapping
algorithm and differ only in the predicate: `unwrapHandle h` is
`unwrapHandleEx h` with the constantly-true predicate (`() => true`),
while the predicate `unwrapHandleEx` defaults to when the caller omits it
is true on exactly the two class names `'Object'` and `'Proxy'`. -/
theorem C9_amended_const_true_predicate (h : RemoteVal) :
    unwrapHandle h = unwrapHandleEx h (fun _ => true)
    ∧ ∀ c, defaultShouldUnwrap c = true ↔ (c = "Object" ∨ c = "Proxy") := by
  refine ⟨rfl, fun c => ?_⟩
  unfold defaultShouldUnwrap
  constructor
  · intro hc
    have hmem : c ∈ ["Object", "Proxy"] := by
      simpa using hc
    simpa using hmem
  · intro hc
    rcases hc with hc | hc <;> subst hc <;> decide

end LeakDetect
